import Mathlib

/-!
Verification of the retry / moving-window statistics core of
`local-graph-node` (`src/graph/src/util/stats.rs` and
`src/graph/src/util/futures.rs`), via a shallow embedding in Lean 4.

Time is modelled in abstract integral units (an `Instant` is a `Nat`,
a `Duration` is a `Nat` number of those units); `saturating_duration_since`
becomes truncated `Nat` subtraction, which saturates at zero exactly like
the Rust original.  A Rust `panic!` is modelled by returning `none` from an
`Option`-valued function.
-/

namespace Graph

/-! ## Embedding of `src/graph/src/util/stats.rs` -/

/-- One bin of durations, from `struct Bin` in `stats.rs`: the bin starts at
time `start`, holds `count` entries whose durations add up to `duration`. -/
structure Bin where
  start : Nat
  duration : Nat
  count : Nat
deriving DecidableEq

/-- `Bin::new` in `stats.rs`. -/
def Bin.new (start : Nat) : Bin :=
  { start := start, duration := 0, count := 0 }

/-- `Bin::add` in `stats.rs`: add one measurement to the bin. -/
def Bin.add (b : Bin) (d : Nat) : Bin :=
  { b with count := b.count + 1, duration := b.duration + d }

/-- `Bin::remove` in `stats.rs`: subtract the measurements of `other`;
Rust `u32`/`Duration` subtraction, exact whenever no underflow occurs. -/
def Bin.remove (b other : Bin) : Bin :=
  { b with count := b.count - other.count, duration := b.duration - other.duration }

/-- Largest value representable by a Rust `std::time::Duration`, in
nanosecond units: `u64::MAX` seconds plus `999_999_999` nanoseconds. -/
def durMax : Nat := (2 ^ 64 - 1) * 1000000000 + 999999999

/-- Model of `Duration::checked_mul`: the exact product when it fits in a
`Duration`, `none` on overflow. -/
def durCheckedMul (d c : Nat) : Option Nat :=
  if d * c ≤ durMax then some (d * c) else none

/-- `Bin::average_gt` in `stats.rs`: compare `duration / count > d` as
`duration > d * count`, with checked multiplication; on overflow the
average is assumed smaller than any duration (result `false`). -/
def Bin.average_gt (b : Bin) (d : Nat) : Bool :=
  ((durCheckedMul d b.count).map (fun rhs => decide (b.duration > rhs))).getD false

/-- `struct MovingStats` in `stats.rs`.  `bins` holds the oldest bin at the
head of the list and the most recent bin at the end (matching the
`VecDeque` front/back). -/
structure MovingStats where
  window_size : Nat
  bin_size : Nat
  bins : List Bin
  total : Bin
deriving DecidableEq

/-- `MovingStats::new` in `stats.rs` (the deque capacity hint has no
observable effect and is not modelled; the `start` of `total` is
meaningless per the source comment, fixed to 0 here). -/
def MovingStats.new (window_size bin_size : Nat) : MovingStats :=
  { window_size := window_size, bin_size := bin_size, bins := [], total := Bin.new 0 }

/-- `MovingStats::average_gt` in `stats.rs`. -/
def MovingStats.average_gt (s : MovingStats) (d : Nat) : Bool :=
  s.total.average_gt d

/-- `MovingStats::average` in `stats.rs` (`Duration::checked_div`). -/
def MovingStats.average (s : MovingStats) : Option Nat :=
  if s.total.count = 0 then none else some (s.total.duration / s.total.count)

/-- The `while` loop of `MovingStats::expire_bins`: pop bins from the front
while the front bin's start is at least `window_size` old relative to
`now`, removing each popped bin's contribution from the running total.
Returns the remaining bins and the updated total. -/
def expireGo (window_size now : Nat) : List Bin → Bin → List Bin × Bin
  | [], total => ([], total)
  | b :: rest, total =>
    if window_size ≤ now - b.start then expireGo window_size now rest (total.remove b)
    else (b :: rest, total)

/-- `MovingStats::expire_bins` in `stats.rs`. -/
def MovingStats.expire_bins (s : MovingStats) (now : Nat) : MovingStats :=
  { s with bins := (expireGo s.window_size now s.bins s.total).1,
           total := (expireGo s.window_size now s.bins s.total).2 }

/-- Apply `f` to the last element of a list (the `back_mut` of the deque). -/
def modifyLast (f : α → α) : List α → List α
  | [] => []
  | [b] => [f b]
  | b :: rest => b :: modifyLast f rest

/-- `MovingStats::add_at` in `stats.rs`.  Returns `none` exactly when the
Rust code would panic on `self.bins.back_mut().unwrap()`, i.e. when the
expiry pass leaves the deque empty. -/
def MovingStats.add_at (s : MovingStats) (now d : Nat) : Option MovingStats :=
  let need_new_bin : Bool :=
    match s.bins.getLast? with
    | some b => decide (s.bin_size ≤ now - b.start)
    | none => true
  let s1 : MovingStats :=
    if need_new_bin then { s with bins := s.bins ++ [Bin.new now] } else s
  let s2 := s1.expire_bins now
  if s2.bins.isEmpty then none
  else some { s2 with bins := modifyLast (fun b => b.add d) s2.bins,
                      total := s2.total.add d }

/-- Fold a list of `(timestamp, duration)` measurements through `add_at`. -/
def MovingStats.addAll (s : MovingStats) (l : List (Nat × Nat)) : Option MovingStats :=
  l.foldl (fun acc td => acc.bind (fun st => st.add_at td.1 td.2)) (some s)

/-- The running-total invariant of `MovingStats`: `total` is the exact sum
of the retained bins, in both the `count` and the `duration` component. -/
def MovingStats.inv (s : MovingStats) : Prop :=
  s.total.count = (s.bins.map Bin.count).sum ∧
    s.total.duration = (s.bins.map Bin.duration).sum

/-! ## Embedding of `src/graph/src/util/futures.rs` -/

/-- Rust `Result`, with the source's `Ok`/`Err` cases. -/
inductive Res (I E : Type) where
  | ok (v : I)
  | err (e : E)
deriving DecidableEq

/-- Model of `tokio::timer::DeadlineError`: an attempt either ran out of
time (`elapsed`), hit an internal timer failure (`timer`), or failed with
the operation's own error (`inner`). -/
inductive DeadlineErr (E : Type) where
  | elapsed
  | timer
  | inner (e : E)
deriving DecidableEq

/-- Rust `Result::is_err`. -/
def Res.isErr {I E : Type} : Res I E → Bool
  | .ok _ => false
  | .err _ => true

/-- The retry predicate installed by `RetryConfig::when_err`:
`|result| result.is_err()`. -/
def whenErrPred (I E : Type) : Res I E → Bool := Res.isErr

/-- Outcome of one attempt inside `run_retry`: retried (the closure wraps
the result in `Err` to force a retry), stopped (wrapped in `Ok` to prevent
a retry), or a `tokio` timer fault (a `panic!` in the source). -/
inductive AttemptStep (I E : Type) where
  | retry (r : Res I (DeadlineErr E))
  | stop (r : Res I (DeadlineErr E))
  | timerPanic
deriving DecidableEq

/-- The classification the closure inside `run_retry` performs on one
attempt's deadline-wrapped result: a timed-out attempt is retried without
consulting the predicate, a timer fault panics, and otherwise the caller's
predicate decides (on the unwrapped inner result) whether to retry. -/
def classify {I E : Type} (pred : Res I E → Bool) :
    Res I (DeadlineErr E) → AttemptStep I E
  | .ok v => if pred (.ok v) then .retry (.ok v) else .stop (.ok v)
  | .err .elapsed => .retry (.err .elapsed)
  | .err .timer => .timerPanic
  | .err (.inner e) =>
    if pred (.err e) then .retry (.err (.inner e)) else .stop (.err (.inner e))

/-- The `Retry::spawn` loop of `run_retry`, instrumented with the attempt
counter: `f k` is the raw (deadline-wrapped) result of attempt `k`
(0-indexed), and the list holds the remaining backoff delays.  Returns how
many attempts were made and the final result handed back by the trailing
`then` (`none` models the timer-fault `panic!`).  When an attempt is to be
retried but the delay iterator is exhausted, the loop returns the last
observed result (`RetryError::OperationError`, unwrapped by that `then`). -/
def retryLoop {I E : Type} (pred : Res I E → Bool)
    (f : Nat → Res I (DeadlineErr E)) :
    Nat → List Nat → Nat × Option (Res I (DeadlineErr E))
  | k, [] =>
    match classify pred (f k) with
    | .timerPanic => (k + 1, none)
    | .stop r => (k + 1, some r)
    | .retry r => (k + 1, some r)
  | k, _ :: rest =>
    match classify pred (f k) with
    | .timerPanic => (k + 1, none)
    | .stop r => (k + 1, some r)
    | .retry _ => retryLoop pred f (k + 1) rest

/-- Largest `u64` value. -/
def u64Max : Nat := 2 ^ 64 - 1

/-- Saturating `u64` multiplication: `checked_mul(..).unwrap_or(u64::MAX)`. -/
def satMulU64 (a b : Nat) : Nat := if a * b ≤ u64Max then a * b else u64Max

/-- State of the `tokio_retry` `ExponentialBackoff` iterator used by
`retry_strategy` (a dependency of `futures.rs`, modelled from its iterator
semantics): `current` is the next delay in milliseconds, each step
multiplies it by `base` (saturating at `u64::MAX`), and a configured
maximum caps the returned delay, freezing the state once exceeded. -/
structure ExponentialBackoff where
  current : Nat
  base : Nat
  maxDelayMs : Option Nat
deriving DecidableEq

/-- One `next()` call on the `ExponentialBackoff` iterator: the delay it
yields (in ms) together with the successor state. -/
def ExponentialBackoff.next (s : ExponentialBackoff) : Nat × ExponentialBackoff :=
  match s.maxDelayMs with
  | some m =>
    if m < s.current then (m, s)
    else (s.current, { s with current := satMulU64 s.current s.base })
  | none => (s.current, { s with current := satMulU64 s.current s.base })

/-- `ExponentialBackoff::from_millis(base)` with an optional `max_delay`. -/
def ebFrom (base : Nat) (m : Option Nat) : ExponentialBackoff :=
  { current := base, base := base, maxDelayMs := m }

/-- The iterator state after `k` calls to `next()`. -/
def ebState (s : ExponentialBackoff) : Nat → ExponentialBackoff
  | 0 => s
  | k + 1 => (ebState s k).next.2

/-- The `k`-th delay (0-indexed) produced by the iterator. -/
def ebDelay (s : ExponentialBackoff) (k : Nat) : Nat := (ebState s k).next.1

/-- The pre-jitter backoff delay configured by `retry_strategy` in
`futures.rs`: `ExponentialBackoff::from_millis(2).max_delay(30_000 ms)`. -/
def backoffDelay (k : Nat) : Nat := ebDelay (ebFrom 2 (some 30000)) k

/-- Model of `tokio_retry::strategy::jitter`: the delay is scaled by a
random fraction `r` drawn from `[0, 1]` (floating-point rounding aside). -/
def jitterScaled (r : ℚ) (d : Nat) : ℚ := r * d

/-- `retry_strategy(Some(limit))` in `futures.rs`, as the list of pre-jitter
delays handed to the retry loop: delays fall *between* attempts, so the
backoff sequence is truncated to `limit - 1` entries.  (With `None` the
strategy is the unbounded sequence `backoffDelay` itself.) -/
def retryStrategyList (limit : Nat) : List Nat :=
  (List.range (limit - 1)).map backoffDelay

/-- `run_retry` in `futures.rs` under a configured attempt limit,
instrumented with the attempt counter: how many times the operation
factory was invoked, and the final result returned to the caller of
`run`. -/
def run_retry {I E : Type} (pred : Res I E → Bool) (limit : Nat)
    (f : Nat → Res I (DeadlineErr E)) : Nat × Option (Res I (DeadlineErr E)) :=
  retryLoop pred f 0 (retryStrategyList limit)

/-- `enum RetryConfigProperty` in `futures.rs`. -/
inductive RetryConfigProperty (V : Type) where
  | Set (v : V)
  | Clear
  | Unknown
deriving DecidableEq

/-- `RetryConfigProperty::set`; `none` models the "must be configured only
once" `panic!`. -/
def RetryConfigProperty.set {V : Type} :
    RetryConfigProperty V → V → Option (RetryConfigProperty V)
  | .Unknown, v => some (.Set v)
  | .Set _, _ => none
  | .Clear, _ => none

/-- `RetryConfigProperty::clear`; `none` models the same panic. -/
def RetryConfigProperty.clear {V : Type} :
    RetryConfigProperty V → Option (RetryConfigProperty V)
  | .Unknown => some .Clear
  | .Set _ => none
  | .Clear => none

/-- `RetryConfigProperty::unwrap`, called from `run`; `none` models the
"must have ... parameter configured" panic. -/
def RetryConfigProperty.unwrap {V : Type} :
    RetryConfigProperty V → Option (Option V)
  | .Set v => some (some v)
  | .Clear => some none
  | .Unknown => none

/-- The validated configuration data carried by `RetryConfigWithPredicate`
in `futures.rs`: `log_after` is a plain `u64` field defaulting to 1, and
`limit` is the single `RetryConfigProperty`.  (The predicate and the
logger carry no validation state.) -/
structure RetryConfigState where
  log_after : Nat
  limit : RetryConfigProperty Nat
deriving DecidableEq

/-- The configuration produced by `RetryConfig::when` / `when_err`. -/
def RetryConfigState.initial : RetryConfigState :=
  { log_after := 1, limit := RetryConfigProperty.Unknown }

/-- `RetryConfigWithPredicate::log_after`: a plain field assignment, with
no set-once protection. -/
def RetryConfigState.logAfter (c : RetryConfigState) (min_attempts : Nat) :
    RetryConfigState :=
  { c with log_after := min_attempts }

/-- `RetryConfigWithPredicate::no_logging`: sets `log_after` to
`u64::max_value()`. -/
def RetryConfigState.noLogging (c : RetryConfigState) : RetryConfigState :=
  { c with log_after := u64Max }

/-- `RetryConfigWithPredicate::limit`; `none` models the panic raised by
`RetryConfigProperty::set` on a second configuration. -/
def RetryConfigState.limitTo (c : RetryConfigState) (l : Nat) :
    Option RetryConfigState :=
  (c.limit.set l).map (fun p => { c with limit := p })

/-- `RetryConfigWithPredicate::no_limit`; `none` models the panic raised by
`RetryConfigProperty::clear` on a second configuration. -/
def RetryConfigState.noLimit (c : RetryConfigState) : Option RetryConfigState :=
  (c.limit.clear).map (fun p => { c with limit := p })

/-- The `limit.unwrap(..)` that `run` performs; `none` models the
configuration panic raised when the limit stage was skipped. -/
def RetryConfigState.runLimit (c : RetryConfigState) : Option (Option Nat) :=
  c.limit.unwrap

/-- The predicate of the `custom_when` test in `futures.rs`:
`.when(|result| result.unwrap() < 10)`, which asks for a retry even on a
successful result below 10 (total here: `true` on errors, where the test's
`unwrap` would panic). -/
def customWhenPred : Res Nat Unit → Bool
  | .ok v => decide (v < 10)
  | .err _ => true

/-- The operation of the `custom_when` test: the `j`-th invocation (from 0)
yields `Ok (j + 1)` for the first 30 calls, then errors. -/
def customWhenOp (j : Nat) : Res Nat (DeadlineErr Unit) :=
  if j < 30 then .ok (j + 1) else .err (.inner ())

/-! ### Lemmas about the expiry loop and `add_at` -/

theorem Bin.count_add (b : Bin) (d : Nat) : (b.add d).count = b.count + 1 := rfl

theorem Bin.duration_add (b : Bin) (d : Nat) : (b.add d).duration = b.duration + d := rfl

theorem expireGo_ne_nil (window_size now : Nat) :
    ∀ (l : List Bin) (total b : Bin), l.getLast? = some b →
      now - b.start < window_size → (expireGo window_size now l total).1 ≠ [] := by
  intro l
  induction l with
  | nil => intro total b h; simp at h
  | cons hd tl ih =>
    intro total b hlast hlt
    rw [expireGo]
    by_cases hc : window_size ≤ now - hd.start
    · rw [if_pos hc]
      cases tl with
      | nil =>
        simp only [List.getLast?_singleton, Option.some.injEq] at hlast
        subst hlast
        omega
      | cons h2 t2 =>
        exact ih _ b (by simpa using hlast) hlt
    · rw [if_neg hc]
      simp

theorem expireGo_inv (window_size now : Nat) :
    ∀ (l : List Bin) (total : Bin),
      total.count = (l.map Bin.count).sum →
      total.duration = (l.map Bin.duration).sum →
      (expireGo window_size now l total).2.count
          = (((expireGo window_size now l total).1).map Bin.count).sum ∧
        (expireGo window_size now l total).2.duration
          = (((expireGo window_size now l total).1).map Bin.duration).sum := by
  intro l
  induction l with
  | nil =>
    intro total hc hd
    rw [expireGo]
    exact ⟨hc, hd⟩
  | cons b rest ih =>
    intro total hc hd
    simp only [List.map_cons, List.sum_cons] at hc hd
    rw [expireGo]
    by_cases hcond : window_size ≤ now - b.start
    · rw [if_pos hcond]
      exact ih (total.remove b) (by simp [Bin.remove, hc]) (by simp [Bin.remove, hd])
    · rw [if_neg hcond]
      constructor
      · simpa using hc
      · simpa using hd

theorem modifyLast_add_sum (d : Nat) :
    ∀ (l : List Bin), l ≠ [] →
      ((modifyLast (fun b => b.add d) l).map Bin.count).sum = (l.map Bin.count).sum + 1 ∧
      ((modifyLast (fun b => b.add d) l).map Bin.duration).sum
          = (l.map Bin.duration).sum + d := by
  intro l
  induction l with
  | nil => intro h; exact absurd rfl h
  | cons b rest ih =>
    intro _
    cases rest with
    | nil =>
      simp [modifyLast, Bin.add]
    | cons b2 t2 =>
      obtain ⟨ihc, ihd⟩ := ih (by simp)
      simp only [modifyLast, List.map_cons, List.sum_cons] at ihc ihd ⊢
      omega

/-- Case analysis of `MovingStats::add_at`: the bin list fed to the expiry
pass is either the original list (no new bin needed) or the original list
with a fresh empty bin at the back, and the result is assembled from the
expiry pass's output, with `none` when that output is empty. -/
theorem add_at_spec (s : MovingStats) (now d : Nat) :
    ∃ bins1 : List Bin,
      ((s.bins.getLast? = none ∧ bins1 = s.bins ++ [Bin.new now]) ∨
        (∃ b, s.bins.getLast? = some b ∧ s.bin_size ≤ now - b.start ∧
          bins1 = s.bins ++ [Bin.new now]) ∨
        (∃ b, s.bins.getLast? = some b ∧ now - b.start < s.bin_size ∧ bins1 = s.bins)) ∧
      s.add_at now d =
        (if (expireGo s.window_size now bins1 s.total).1.isEmpty then none
          else some (MovingStats.mk s.window_size s.bin_size
            (modifyLast (fun b => b.add d) (expireGo s.window_size now bins1 s.total).1)
            ((expireGo s.window_size now bins1 s.total).2.add d))) := by
  cases hl : s.bins.getLast? with
  | none =>
    exact ⟨s.bins ++ [Bin.new now], Or.inl ⟨rfl, rfl⟩, by
      simp [MovingStats.add_at, hl, MovingStats.expire_bins]⟩
  | some b =>
    by_cases hb : s.bin_size ≤ now - b.start
    · exact ⟨s.bins ++ [Bin.new now], Or.inr (Or.inl ⟨b, rfl, hb, rfl⟩), by
        simp [MovingStats.add_at, hl, hb, MovingStats.expire_bins]⟩
    · exact ⟨s.bins, Or.inr (Or.inr ⟨b, rfl, by omega, rfl⟩), by
        simp [MovingStats.add_at, hl, hb, MovingStats.expire_bins]⟩

/-- C1: after every call to `add_at` (including the evictions it performs),
the running-total `Bin` equals the exact sum of the retained bins: the
invariant holds for a fresh `MovingStats` and is preserved by every
non-panicking `add_at` call, because eviction subtracts exactly the evicted
bin's count and duration from the total. -/
theorem C1_running_total_invariant :
    (∀ window_size bin_size, (MovingStats.new window_size bin_size).inv) ∧
    (∀ (s : MovingStats) (now d : Nat) (s' : MovingStats),
      s.inv → s.add_at now d = some s' → s'.inv) := by
  constructor
  · intro ws bs
    exact ⟨rfl, rfl⟩
  · intro s now d s' hinv hadd
    obtain ⟨bins1, hcase, heq⟩ := add_at_spec s now d
    have h1c : s.total.count = (bins1.map Bin.count).sum := by
      rcases hcase with ⟨_, h2⟩ | ⟨b, _, _, h2⟩ | ⟨b, _, _, h2⟩ <;>
        simp [h2, hinv.1, Bin.new]
    have h1d : s.total.duration = (bins1.map Bin.duration).sum := by
      rcases hcase with ⟨_, h2⟩ | ⟨b, _, _, h2⟩ | ⟨b, _, _, h2⟩ <;>
        simp [h2, hinv.2, Bin.new]
    obtain ⟨h2c, h2d⟩ := expireGo_inv s.window_size now bins1 s.total h1c h1d
    rw [heq] at hadd
    by_cases hemp : (expireGo s.window_size now bins1 s.total).1.isEmpty
    · rw [if_pos hemp] at hadd
      exact absurd hadd (by simp)
    · rw [if_neg hemp] at hadd
      have hne : (expireGo s.window_size now bins1 s.total).1 ≠ [] := by
        simpa [List.isEmpty_iff] using hemp
      obtain ⟨hmc, hmd⟩ := modifyLast_add_sum d _ hne
      obtain rfl := Option.some.inj hadd
      constructor
      · simp only [Bin.count_add, hmc, h2c]
      · simp only [Bin.duration_add, hmd, h2d]

theorem C1_running_total_invariant_witness :
    (MovingStats.new 5 1).add_at 0 1
        = some (MovingStats.mk 5 1 [Bin.mk 0 1 1] (Bin.mk 0 1 1)) ∧
      (MovingStats.mk 5 1 [Bin.mk 0 1 1] (Bin.mk 0 1 1)).inv :=
  ⟨by decide,
    C1_running_total_invariant.2 (MovingStats.new 5 1) 0 1 _
      (C1_running_total_invariant.1 5 1) (by decide)⟩

/-- C8: with `window_size = 5` and `bin_size = 1` (seconds), adding ten
measurements of duration 1 at timestamps 0, 1, …, 9 leaves exactly the
measurements from t = 5..9 in the window after the add at t = 9: the total
count is 5 and the total duration is 5, and the retained bins are the bins
started at 5, 6, 7, 8, 9, each with one measurement of duration 1. -/
theorem C8_window_scenario :
    ((MovingStats.new 5 1).addAll ((List.range 10).map (fun i => (i, 1)))).map
        (fun s => (s.total.count, s.total.duration,
          s.bins.map (fun b => (b.start, b.count, b.duration)))) =
      some (5, 5, [(5, 1, 1), (6, 1, 1), (7, 1, 1), (8, 1, 1), (9, 1, 1)]) := by
  decide

/-- C9: `average_gt threshold` returns the truth value of
`total.duration > threshold * total.count` computed with overflow-checked
multiplication, and when that multiplication overflows the representable
`Duration` range it returns `false` instead of failing. -/
theorem C9_average_gt_checked :
    ∀ (s : MovingStats) (t : Nat),
      (t * s.total.count ≤ durMax →
        s.average_gt t = decide (s.total.duration > t * s.total.count)) ∧
      (durMax < t * s.total.count → s.average_gt t = false) := by
  intro s t
  constructor
  · intro h
    simp [MovingStats.average_gt, Bin.average_gt, durCheckedMul, if_pos h]
  · intro h
    simp [MovingStats.average_gt, Bin.average_gt, durCheckedMul, Nat.not_le.mpr h]

theorem C9_average_gt_checked_witness :
    durMax < durMax * (2 ^ 32 - 1) ∧
      (MovingStats.mk 5 1 [] (Bin.mk 0 durMax (2 ^ 32 - 1))).average_gt durMax = false :=
  ⟨by decide, (C9_average_gt_checked _ durMax).2 (by decide)⟩

/-- C10: the internal `unwrap` of `bins.back_mut()` in `add_at` never fires
when `window_size > 0` and `bin_size ≤ window_size` (for any state, so in
particular along every sequence of `add_at` calls), while for
`bin_size > window_size` and for `window_size = 0` the unwrap is reachable:
concrete call sequences make `add_at` hit the empty-deque panic. -/
theorem C10_add_at_no_panic :
    (∀ (s : MovingStats) (now d : Nat), 0 < s.window_size →
        s.bin_size ≤ s.window_size → (s.add_at now d).isSome = true) ∧
      ((MovingStats.new 1 5).add_at 0 0).bind (fun st => st.add_at 2 0) = none ∧
      (MovingStats.new 0 1).add_at 0 0 = none := by
  refine ⟨?_, by decide, by decide⟩
  intro s now d hw hbw
  obtain ⟨bins1, hcase, heq⟩ := add_at_spec s now d
  have hlast : ∃ b, bins1.getLast? = some b ∧ now - b.start < s.window_size := by
    rcases hcase with ⟨h1, h2⟩ | ⟨b, h1, h2, h3⟩ | ⟨b, h1, h2, h3⟩
    · exact ⟨Bin.new now, by simp [h2], by simp [Bin.new]; omega⟩
    · exact ⟨Bin.new now, by simp [h3], by simp [Bin.new]; omega⟩
    · exact ⟨b, h3 ▸ h1, by omega⟩
  obtain ⟨b, hb, hblt⟩ := hlast
  have hne := expireGo_ne_nil s.window_size now bins1 s.total b hb hblt
  rw [heq, if_neg (by simpa [List.isEmpty_iff] using hne)]
  rfl

theorem C10_add_at_no_panic_witness :
    ((MovingStats.new 5 1).add_at 0 1).isSome = true :=
  C10_add_at_no_panic.1 (MovingStats.new 5 1) 0 1 (by decide) (by decide)

/-! ### Lemmas about the retry loop -/

/-- If every attempt up to and including the last one covered by the delay
iterator asks for a retry, the loop runs exactly `delays.length + 1`
attempts and returns the last retried result. -/
theorem retryLoop_exhaust {I E : Type} (pred : Res I E → Bool)
    (f : Nat → Res I (DeadlineErr E)) :
    ∀ (delays : List Nat) (k : Nat) (r : Res I (DeadlineErr E)),
      (∀ j, j < delays.length → ∃ r', classify pred (f (k + j)) = .retry r') →
      classify pred (f (k + delays.length)) = .retry r →
      retryLoop pred f k delays = (k + delays.length + 1, some r) := by
  intro delays
  induction delays with
  | nil =>
    intro k r _ hfin
    simp only [List.length_nil, Nat.add_zero] at hfin ⊢
    rw [retryLoop, hfin]
  | cons d rest ih =>
    intro k r hall hfin
    obtain ⟨r0, hr0⟩ := hall 0 (by simp)
    simp only [Nat.add_zero] at hr0
    rw [retryLoop, hr0]
    have hrec := ih (k + 1) r
      (fun j hj => by
        have h := hall (j + 1) (by simpa using Nat.succ_lt_succ hj)
        have harith : k + (j + 1) = k + 1 + j := by omega
        rwa [harith] at h)
      (by
        have harith : k + (d :: rest).length = k + 1 + rest.length := by
          simp
          omega
        rwa [harith] at hfin)
    rw [hrec]
    have harith : k + 1 + rest.length + 1 = k + (d :: rest).length + 1 := by
      simp
      omega
    rw [harith]

/-- If the first `n` attempts ask for a retry and attempt `n` stops the
loop, the loop makes exactly `n + 1` attempts and returns the stopping
result, provided the delay iterator covers at least `n` retries. -/
theorem retryLoop_stops {I E : Type} (pred : Res I E → Bool)
    (f : Nat → Res I (DeadlineErr E)) :
    ∀ (n k : Nat) (delays : List Nat) (r : Res I (DeadlineErr E)),
      (∀ j, j < n → ∃ r', classify pred (f (k + j)) = .retry r') →
      classify pred (f (k + n)) = .stop r →
      n ≤ delays.length →
      retryLoop pred f k delays = (k + n + 1, some r) := by
  intro n
  induction n with
  | zero =>
    intro k delays r _ hstop _
    simp only [Nat.add_zero] at hstop ⊢
    cases delays with
    | nil => rw [retryLoop, hstop]
    | cons d rest => rw [retryLoop, hstop]
  | succ n ih =>
    intro k delays r hall hstop hlen
    cases delays with
    | nil => simp at hlen
    | cons d rest =>
      obtain ⟨r0, hr0⟩ := hall 0 (Nat.succ_pos n)
      simp only [Nat.add_zero] at hr0
      rw [retryLoop, hr0]
      have hrec := ih (k + 1) rest r
        (fun j hj => by
          have h := hall (j + 1) (Nat.succ_lt_succ hj)
          have harith : k + (j + 1) = k + 1 + j := by omega
          rwa [harith] at h)
        (by
          have harith : k + (n + 1) = k + 1 + n := by omega
          rwa [harith] at hstop)
        (by simp only [List.length_cons] at hlen; omega)
      rw [hrec]
      have harith : k + 1 + n + 1 = k + (n + 1) + 1 := by omega
      rw [harith]

/-! ### Claims about the retry executor -/

/-- C2: for every configured limit `L ≥ 1`, an operation failing retryably
on every attempt causes exactly `L` invocations of the operation factory,
the error returned by `run` is the error observed on the `L`-th attempt,
and the backoff sequence handed to the retry loop has exactly `L - 1`
elements — in particular `limit 1` makes exactly one attempt and hands the
loop an empty backoff sequence, so no backoff delay is induced. -/
theorem C2_limit_exhaustion {I E : Type} (pred : Res I E → Bool) (errs : Nat → E)
    (L : Nat) (hL : 1 ≤ L) (hpred : ∀ j, pred (.err (errs j)) = true) :
    run_retry pred L (fun j => .err (.inner (errs j)))
        = (L, some (.err (.inner (errs (L - 1))))) ∧
      (retryStrategyList L).length = L - 1 := by
  have hlen : (retryStrategyList L).length = L - 1 := by
    simp [retryStrategyList]
  refine ⟨?_, hlen⟩
  have h := retryLoop_exhaust pred (fun j => .err (.inner (errs j)))
    (retryStrategyList L) 0 (.err (.inner (errs (L - 1))))
    (fun j _ => ⟨.err (.inner (errs j)), by simp [classify, hpred]⟩)
    (by simp [classify, hpred, hlen])
  rw [run_retry, h, hlen]
  have harith : 0 + (L - 1) + 1 = L := by omega
  rw [harith]

theorem C2_limit_exhaustion_witness :
    run_retry (whenErrPred Nat Nat) 3 (fun j => .err (.inner j))
        = (3, some (.err (.inner 2))) ∧
      (retryStrategyList 3).length = 2 :=
  C2_limit_exhaustion (whenErrPred Nat Nat) (fun j => j) 3 (by decide) (fun _ => rfl)

/-- C3: a timed-out attempt is always classified as retryable without
consulting the caller's predicate (the classification is the same for
every predicate), and when the attempts exhaust with the last observed
outcome a timeout, `run` returns the timeout-tagged error
`DeadlineErr.elapsed`, which is distinguishable from every
operation-tagged error `DeadlineErr.inner e`. -/
theorem C3_timeout_retryable {I E : Type} :
    (∀ pred : Res I E → Bool,
        classify pred (.err .elapsed) = AttemptStep.retry (.err .elapsed)) ∧
      (∀ (pred : Res I E → Bool) (f : Nat → Res I (DeadlineErr E)) (L : Nat),
        1 ≤ L →
        (∀ j, j < L - 1 → ∃ r', classify pred (f j) = .retry r') →
        f (L - 1) = .err .elapsed →
        run_retry pred L f = (L, some (.err .elapsed))) ∧
      (∀ e : E, (Res.err DeadlineErr.elapsed : Res I (DeadlineErr E))
          ≠ Res.err (DeadlineErr.inner e)) := by
  refine ⟨fun _ => rfl, ?_, by intro e; simp⟩
  intro pred f L hL hall hfin
  have hlen : (retryStrategyList L).length = L - 1 := by
    simp [retryStrategyList]
  have h := retryLoop_exhaust pred f (retryStrategyList L) 0 (.err .elapsed)
    (fun j hj => by
      simp only [Nat.zero_add]
      exact hall j (hlen ▸ hj))
    (by rw [hlen, Nat.zero_add, hfin]; rfl)
  rw [run_retry, h, hlen]
  have harith : 0 + (L - 1) + 1 = L := by omega
  rw [harith]

theorem C3_timeout_retryable_witness :
    run_retry (whenErrPred Nat Nat) 2 (fun _ => .err .elapsed)
        = (2, some (.err .elapsed)) :=
  C3_timeout_retryable.2.1 (whenErrPred Nat Nat) (fun _ => .err .elapsed) 2
    (by decide) (fun _ _ => ⟨.err .elapsed, rfl⟩) rfl

/-- C4 counterexample, mirroring the `custom_when` test in `futures.rs`:
the first attempt completes successfully with `Ok 1`, yet `run` does not
return it — the configured predicate asks for a retry on successes below
10, so the loop keeps going and returns `Ok 10` after 10 attempts. -/
theorem C4_success_counterexample :
    run_retry customWhenPred 20 customWhenOp = (10, some (.ok 10)) ∧
      customWhenOp 0 = .ok 1 ∧ (10 : Nat) ≠ 1 := by
  refine ⟨by decide, by decide, by decide⟩

/-- C4 amended: if an attempt completes successfully and the configured
predicate does not classify that success as retryable, `run` returns the
success value immediately with no further attempts; the `when_err`
predicate never classifies a success as retryable, so under `when_err`
every success returns immediately — but a custom `when` predicate may
deliberately retry successful results. -/
theorem C4_success_returns {I E : Type} (pred : Res I E → Bool)
    (f : Nat → Res I (DeadlineErr E)) (k : Nat) (v : I) (delays : List Nat)
    (hall : ∀ j, j < k → ∃ r', classify pred (f j) = .retry r')
    (hok : f k = .ok v) (hpred : pred (.ok v) = false)
    (hlen : k ≤ delays.length) :
    retryLoop pred f 0 delays = (k + 1, some (.ok v)) ∧
      whenErrPred I E (.ok v) = false := by
  refine ⟨?_, rfl⟩
  have h := retryLoop_stops pred f k 0 delays (.ok v)
    (fun j hj => by simpa using hall j hj)
    (by rw [Nat.zero_add, hok]; simp [classify, hpred])
    hlen
  simpa using h

theorem C4_success_returns_witness :
    retryLoop (whenErrPred Nat Nat) (fun _ => .ok 5) 0 [] = (1, some (.ok 5)) ∧
      whenErrPred Nat Nat (.ok 5) = false :=
  C4_success_returns (whenErrPred Nat Nat) (fun _ => .ok 5) 0 5 []
    (fun j hj => absurd hj (Nat.not_lt_zero j)) rfl rfl (Nat.le_refl 0)

/-- C5: the first attempt whose error the predicate classifies as terminal
ends the loop immediately: `run` returns that error with no further
attempts, for every remaining delay budget (so in particular under an
unlimited strategy) and even when the terminal error occurs on attempt 1
(`k = 0`). -/
theorem C5_terminal_stops {I E : Type} (pred : Res I E → Bool)
    (f : Nat → Res I (DeadlineErr E)) (k : Nat) (e : E) (delays : List Nat)
    (hall : ∀ j, j < k → ∃ r', classify pred (f j) = .retry r')
    (herr : f k = .err (.inner e)) (hpred : pred (.err e) = false)
    (hlen : k ≤ delays.length) :
    retryLoop pred f 0 delays = (k + 1, some (.err (.inner e))) := by
  have h := retryLoop_stops pred f k 0 delays (.err (.inner e))
    (fun j hj => by simpa using hall j hj)
    (by rw [Nat.zero_add, herr]; simp [classify, hpred])
    hlen
  simpa using h

/-! ### The backoff sequence of `retry_strategy` -/

theorem ebState_two (k : Nat) :
    ebState (ebFrom 2 (some 30000)) k
      = ExponentialBackoff.mk (min (2 ^ (k + 1)) 32768) 2 (some 30000) := by
  induction k with
  | zero => rfl
  | succ k ih =>
    show (ebState (ebFrom 2 (some 30000)) k).next.2 = _
    rw [ih]
    simp only [ExponentialBackoff.next]
    by_cases h : k + 1 ≤ 14
    · have h1 : 2 ^ (k + 1) ≤ 16384 := by
        calc 2 ^ (k + 1) ≤ 2 ^ 14 := Nat.pow_le_pow_right (by omega) h
          _ = 16384 := by norm_num
      have hmin : min (2 ^ (k + 1)) 32768 = 2 ^ (k + 1) :=
        Nat.min_eq_left (by omega)
      rw [hmin, if_neg (by omega)]
      have hsat : satMulU64 (2 ^ (k + 1)) 2 = 2 ^ (k + 1) * 2 := by
        rw [satMulU64, if_pos (by rw [u64Max]; omega)]
      have hpow : 2 ^ (k + 1 + 1) = 2 ^ (k + 1) * 2 := Nat.pow_succ 2 (k + 1)
      have hmin2 : min (2 ^ (k + 1 + 1)) 32768 = 2 ^ (k + 1) * 2 := by
        rw [hpow]
        exact Nat.min_eq_left (by omega)
      simp [hsat, hmin2]
    · have h2 : 32768 ≤ 2 ^ (k + 1) := by
        calc (32768 : Nat) = 2 ^ 15 := by norm_num
          _ ≤ 2 ^ (k + 1) := Nat.pow_le_pow_right (by omega) (by omega)
      have h3 : 32768 ≤ 2 ^ (k + 1 + 1) := by
        calc (32768 : Nat) ≤ 2 ^ (k + 1) := h2
          _ ≤ 2 ^ (k + 1 + 1) := Nat.pow_le_pow_right (by omega) (by omega)
      have hmin : min (2 ^ (k + 1)) 32768 = 32768 := Nat.min_eq_right h2
      rw [hmin, if_pos (by omega)]
      simp [hmin, Nat.min_eq_right h3]

theorem backoffDelay_eq (k : Nat) : backoffDelay k = min (2 * 2 ^ k) 30000 := by
  rw [backoffDelay, ebDelay, ebState_two]
  simp only [ExponentialBackoff.next]
  have hpow : 2 ^ (k + 1) = 2 * 2 ^ k := by
    rw [Nat.pow_succ]
    ring
  by_cases h : 30000 < min (2 ^ (k + 1)) 32768
  · rw [if_pos h]
    have hgt : 30000 < 2 ^ (k + 1) := lt_of_lt_of_le h (min_le_left _ _)
    rw [← hpow, eq_comm]
    exact Nat.min_eq_right (by omega)
  · rw [if_neg h]
    have hle : 2 ^ (k + 1) ≤ 30000 := by
      rcases Nat.le_total (2 ^ (k + 1)) 32768 with hc | hc
      · rw [Nat.min_eq_left hc] at h
        omega
      · rw [Nat.min_eq_right hc] at h
        omega
    rw [Nat.min_eq_left (by omega), ← hpow, Nat.min_eq_left hle]

/-- C6: the pre-jitter backoff delay satisfies, for every attempt index
`k`, `delay k = min (base * growth ^ k) max_delay` with growth 2, base
2 ms and max 30 s; jitter scales a delay by a random fraction in `[0, 1]`,
so the jittered delay lies in `[0, delay k]`; and ignoring jitter the
delays are non-negative, each at most the 30 s cap, and non-decreasing in
`k` up to the cap. -/
theorem C6_backoff_formula :
    (∀ k, backoffDelay k = min (2 * 2 ^ k) 30000) ∧
      (∀ (r : ℚ) (d : Nat), 0 ≤ r → r ≤ 1 →
        0 ≤ jitterScaled r d ∧ jitterScaled r d ≤ (d : ℚ)) ∧
      (∀ k, 0 ≤ backoffDelay k ∧ backoffDelay k ≤ 30000) ∧
      (∀ k, backoffDelay k ≤ backoffDelay (k + 1)) := by
  refine ⟨backoffDelay_eq, ?_, ?_, ?_⟩
  · intro r d h0 h1
    constructor
    · exact mul_nonneg h0 (by positivity)
    · calc jitterScaled r d = r * d := rfl
        _ ≤ 1 * d := by
          apply mul_le_mul_of_nonneg_right h1
          positivity
        _ = d := one_mul _
  · intro k
    rw [backoffDelay_eq]
    exact ⟨Nat.zero_le _, min_le_right _ _⟩
  · intro k
    rw [backoffDelay_eq, backoffDelay_eq]
    apply min_le_min _ le_rfl
    have : (2 : Nat) ^ k ≤ 2 ^ (k + 1) := Nat.pow_le_pow_right (by omega) (by omega)
    omega

theorem C6_backoff_formula_witness :
    0 ≤ jitterScaled (1 / 2) 8 ∧ jitterScaled (1 / 2) 8 ≤ ((8 : Nat) : ℚ) :=
  C6_backoff_formula.2.1 (1 / 2) 8 (by norm_num) (by norm_num)

/-! ### The staged configuration protocol -/

/-- C7 counterexample: re-invoking the `log_after` stage does not fail
with a configuration error — in the source `log_after` is a plain field
assignment with no set-once protection, so a second call succeeds and
simply overwrites the threshold (while every configuration panic in this
embedding is modelled as `none` of an `Option`-valued operation,
`log_after` is total). -/
theorem C7_log_after_counterexample :
    (RetryConfigState.initial.logAfter 2).logAfter 3
      = RetryConfigState.mk 3 RetryConfigProperty.Unknown := rfl

/-- C7 amended: setting the `limit` property a second time — calling
`limit` or `no_limit` after either was already invoked — fails with the
"configured only once" configuration panic, and invoking `run` before the
limit stage has been completed fails with the "must have limit parameter
configured" panic; both are fatal programming errors that are never
retried.  The optional `log_after` stage, by contrast, may be re-invoked
freely and overwrites the previous threshold; the remaining stage
orderings are enforced at compile time by the staged builder types. -/
theorem C7_config_once :
    (∀ (c : RetryConfigState) (n : Nat), c.limit ≠ RetryConfigProperty.Unknown →
        c.limitTo n = none ∧ c.noLimit = none) ∧
      (∀ c : RetryConfigState, c.limit = RetryConfigProperty.Unknown →
        c.runLimit = none) ∧
      (∀ (c : RetryConfigState) (n m : Nat),
        (c.logAfter n).logAfter m = c.logAfter m) := by
  refine ⟨?_, ?_, fun c n m => rfl⟩
  · intro c n h
    cases hc : c.limit with
    | Set v =>
      exact ⟨by simp [RetryConfigState.limitTo, hc, RetryConfigProperty.set],
        by simp [RetryConfigState.noLimit, hc, RetryConfigProperty.clear]⟩
    | Clear =>
      exact ⟨by simp [RetryConfigState.limitTo, hc, RetryConfigProperty.set],
        by simp [RetryConfigState.noLimit, hc, RetryConfigProperty.clear]⟩
    | Unknown => exact absurd hc h
  · intro c h
    simp [RetryConfigState.runLimit, h, RetryConfigProperty.unwrap]

theorem C7_config_once_witness :
    ((RetryConfigState.mk 1 (RetryConfigProperty.Set 5)).limitTo 3 = none ∧
        (RetryConfigState.mk 1 (RetryConfigProperty.Set 5)).noLimit = none) ∧
      RetryConfigState.initial.runLimit = none :=
  ⟨C7_config_once.1 (RetryConfigState.mk 1 (RetryConfigProperty.Set 5)) 3 (by decide),
    C7_config_once.2.1 RetryConfigState.initial rfl⟩

theorem C5_terminal_stops_witness :
    retryLoop (fun _ => false) (fun _ => (Res.err (DeadlineErr.inner 7) : Res Nat (DeadlineErr Nat)))
        0 [0, 0, 0] = (1, some (.err (.inner 7))) :=
  @C5_terminal_stops Nat Nat (fun _ => false) (fun _ => Res.err (DeadlineErr.inner 7))
    0 7 [0, 0, 0] (fun j hj => absurd hj (Nat.not_lt_zero j)) rfl rfl (by decide)

end Graph
